import Mathlib

/-!
Shallow embedding of the NexTraction backend core services
(`content_processor.py`, `answer_generator.py`, `vector_store.py`,
`crawler.py`, `ingestion_service.py`) and proofs about them.

Python strings are modelled as lists of characters (`PyStr`); Python
floats are modelled as rationals; external library primitives
(hashlib digests, the FAISS index, L2 normalisation, URL parsing,
the network fetch and the completion/embedding providers) are taken
as explicit function parameters of the definitions that use them.
-/

namespace NexTraction

/-- Python `str` modelled as a list of characters. -/
abbrev PyStr := List Char

/-- Helper turning a Lean string literal into a `PyStr`. -/
def str (s : String) : PyStr := s.data

/-- Accumulator-based worker for Python `str.split()` with no arguments:
`cur` is the reversed current word being accumulated. -/
def pyWordsAux (cur : PyStr) : PyStr → List PyStr
  | [] => if cur.isEmpty then [] else [cur.reverse]
  | c :: cs =>
    if c.isWhitespace then
      if cur.isEmpty then pyWordsAux [] cs else cur.reverse :: pyWordsAux [] cs
    else pyWordsAux (c :: cur) cs

/-- Python `s.split()` (no arguments): split on runs of whitespace and
drop empty pieces. -/
def pyWords (s : PyStr) : List PyStr := pyWordsAux [] s

/-- Python `len(s.split())`: the number of whitespace-separated words. -/
def pyWordCount (s : PyStr) : Nat := (pyWords s).length

/-- Python `sep.join(parts)`. -/
def joinWith (sep : PyStr) : List PyStr → PyStr
  | [] => []
  | [s] => s
  | s :: rest => s ++ sep ++ joinWith sep rest

/-- Python `" ".join(parts)`, the form used by the chunker. -/
def joinSp (parts : List PyStr) : PyStr := joinWith [' '] parts

/-- Python `s.strip()`: drop whitespace from both ends. -/
def pyStrip (s : PyStr) : PyStr :=
  ((s.dropWhile Char.isWhitespace).reverse.dropWhile Char.isWhitespace).reverse

theorem pyWordsAux_append_ws (ys : PyStr) :
    ∀ (xs cur : PyStr),
      pyWordsAux cur (xs ++ ' ' :: ys) = pyWordsAux cur xs ++ pyWords ys := by
  intro xs
  induction xs with
  | nil =>
    intro cur
    by_cases h : cur.isEmpty <;>
      simp [pyWordsAux, pyWords, h]
  | cons c cs ih =>
    intro cur
    by_cases hws : c.isWhitespace
    · by_cases hc : cur.isEmpty <;>
        simp [pyWordsAux, hws, hc, ih]
    · simp [pyWordsAux, hws, ih]

theorem pyWords_append_ws (xs ys : PyStr) :
    pyWords (xs ++ ' ' :: ys) = pyWords xs ++ pyWords ys :=
  pyWordsAux_append_ws ys xs []

theorem pyWords_joinSp (parts : List PyStr) :
    pyWords (joinSp parts) = (parts.map pyWords).flatten := by
  induction parts with
  | nil => simp [joinSp, joinWith, pyWords, pyWordsAux]
  | cons s rest ih =>
    cases rest with
    | nil => simp [joinSp, joinWith]
    | cons t more =>
      have : joinSp (s :: t :: more) = s ++ ' ' :: joinSp (t :: more) := by
        simp [joinSp, joinWith]
      rw [this, pyWords_append_ws, ih]
      simp

theorem pyWordCount_joinSp (parts : List PyStr) :
    pyWordCount (joinSp parts) = (parts.map pyWordCount).sum := by
  simp only [pyWordCount, pyWords_joinSp, List.length_flatten, List.map_map]
  rfl

theorem mem_pyWords_joinSp {w s : PyStr} {parts : List PyStr}
    (hs : s ∈ parts) (hw : w ∈ pyWords s) : w ∈ pyWords (joinSp parts) := by
  rw [pyWords_joinSp]
  exact List.mem_flatten.2 ⟨pyWords s, List.mem_map_of_mem _ hs, hw⟩

theorem pyWordsAux_eq_nil {s : PyStr} : ∀ (cur : PyStr),
    pyWordsAux cur s = [] → cur.isEmpty ∧ ∀ c ∈ s, c.isWhitespace := by
  induction s with
  | nil =>
    intro cur h
    by_cases hc : cur.isEmpty
    · simp [hc]
    · simp [pyWordsAux, hc] at h
  | cons c cs ih =>
    intro cur h
    by_cases hws : c.isWhitespace
    · by_cases hc : cur.isEmpty
      · have := ih [] (by simpa [pyWordsAux, hws, hc] using h)
        refine ⟨hc, ?_⟩
        intro x hx
        rcases List.mem_cons.1 hx with rfl | hx'
        · exact hws
        · exact this.2 x hx'
      · simp [pyWordsAux, hws, hc] at h
    · have := ih (c :: cur) (by simpa [pyWordsAux, hws] using h)
      simp [List.isEmpty] at this

theorem pyWords_ne_nil {s : PyStr} {c : Char}
    (hc : c ∈ s) (hw : ¬ c.isWhitespace) : pyWords s ≠ [] := by
  intro h
  exact hw ((pyWordsAux_eq_nil [] h).2 c hc)

theorem dropWhile_head_not (p : Char → Bool) (l : PyStr) :
    ∀ {c : Char} {cs : PyStr}, l.dropWhile p = c :: cs → p c = false := by
  induction l with
  | nil => intro c cs h; simp [List.dropWhile] at h
  | cons x xs ih =>
    intro c cs h
    by_cases hx : p x
    · exact ih (by simpa [List.dropWhile, hx] using h)
    · rw [List.dropWhile_cons_of_neg (by simpa using hx)] at h
      cases h
      simpa using hx

theorem pyStrip_has_word {s : PyStr} (h : pyStrip s ≠ []) :
    ∃ c ∈ pyStrip s, ¬ c.isWhitespace := by
  unfold pyStrip at h ⊢
  cases hd : (s.dropWhile Char.isWhitespace).reverse.dropWhile Char.isWhitespace with
  | nil => rw [hd] at h; simp at h
  | cons c cs =>
    refine ⟨c, by simp, ?_⟩
    simpa using dropWhile_head_not _ _ hd

/-! ## ContentProcessor (`content_processor.py`) -/

/-- Sentence-ending punctuation recognised by the splitting pattern
`(?<=[.!?])\s+` of `ContentProcessor._split_into_sentences`. -/
def sentEnd (c : Char) : Bool := c = '.' || c = '!' || c = '?'

/-- Whether the reversed accumulator ends in sentence punctuation, i.e.
the lookbehind `(?<=[.!?])` holds at the current position. -/
def headSentEnd : PyStr → Bool
  | [] => false
  | p :: _ => sentEnd p

/-- Worker for `re.split(r'(?<=[.!?])\s+', text)`: `acc` is the reversed
piece accumulated so far and `skipWs` is true while consuming the
remainder of a greedy `\s+` separator match. -/
def splitSentAux (acc : PyStr) (skipWs : Bool) : PyStr → List PyStr
  | [] => [acc.reverse]
  | c :: cs =>
    if skipWs && c.isWhitespace then splitSentAux acc true cs
    else if c.isWhitespace && headSentEnd acc then
      acc.reverse :: splitSentAux [] true cs
    else splitSentAux (c :: acc) false cs

/-- `ContentProcessor._split_into_sentences`: split at the regex
`(?<=[.!?])\s+`, strip each piece and drop empty pieces. -/
def splitSentences (text : PyStr) : List PyStr :=
  ((splitSentAux [] false text).map pyStrip).filter (fun s => !s.isEmpty)

theorem splitSentences_has_word {text s : PyStr}
    (hs : s ∈ splitSentences text) : pyWords s ≠ [] := by
  unfold splitSentences at hs
  have hmem := List.mem_filter.1 hs
  rcases List.mem_map.1 hmem.1 with ⟨r, _, hr⟩
  have hne : pyStrip r ≠ [] := by
    rw [hr]
    intro hcon
    rw [hcon] at hmem
    simp [List.isEmpty] at hmem
  rcases pyStrip_has_word hne with ⟨c, hc, hcw⟩
  rw [hr] at *
  exact pyWords_ne_nil hc hcw

/-- Configuration of `ContentProcessor.__init__`. -/
structure ChunkCfg where
  chunk_size : Nat
  chunk_overlap : Nat
  min_chunk_length : Nat
deriving Repr, DecidableEq

/-- One chunk dict produced by `ContentProcessor.chunk_text`. -/
structure ChunkRec where
  id : PyStr
  url : PyStr
  title : PyStr
  content : PyStr
  chunk_index : Nat
  word_count : Nat
deriving Repr, DecidableEq

/-- `ContentProcessor._generate_chunk_id`.  The digest primitive
`hashlib.sha256(...).hexdigest()[:16]` is an external library call and
is passed in as the function parameter `digest`; the argument built by
the source is the f-string `f"{url}_{chunk_index}"`. -/
def generate_chunk_id (digest : PyStr → PyStr) (url : PyStr) (chunk_index : Nat) : PyStr :=
  digest (url ++ '_' :: Nat.toDigits 10 chunk_index)

/-- Loop state of `ContentProcessor.chunk_text`: the emitted chunks, the
sentences of `current_chunk`, `current_length` and `chunk_index`. -/
structure ChunkState where
  chunks : List ChunkRec
  current : List PyStr
  currentLen : Nat
  chunkIndex : Nat
deriving Repr, DecidableEq

/-- The `# Keep overlap` loop of `chunk_text`: walk `reversed(current_chunk)`
(passed here already reversed), insert whole sentences at the front while
the running word count stays within `chunk_overlap`, and stop at the
first sentence that does not fit.  Returns `(overlap_sentences,
overlap_length)`. -/
def takeOverlap (ov : Nat) (olen : Nat) : List PyStr → List PyStr × Nat
  | [] => ([], olen)
  | s :: rest =>
    let sl := pyWordCount s
    if olen + sl ≤ ov then
      let pr := takeOverlap ov (olen + sl) rest
      (pr.1 ++ [s], pr.2)
    else ([], olen)

/-- Build the chunk dict appended by `chunk_text`. -/
def mkChunk (digest : PyStr → PyStr) (url title : PyStr) (st : ChunkState)
    (content : PyStr) : ChunkRec :=
  { id := generate_chunk_id digest url st.chunkIndex
    url := url
    title := title
    content := content
    chunk_index := st.chunkIndex
    word_count := st.currentLen }

/-- The `# If adding this sentence exceeds chunk size` block of
`chunk_text`: emit the current chunk when it is long enough, then seed
the next chunk with the trailing overlap. -/
def chunkBoundary (cfg : ChunkCfg) (digest : PyStr → PyStr) (url title : PyStr)
    (st : ChunkState) : ChunkState :=
  let ctext := joinSp st.current
  let st2 :=
    if cfg.min_chunk_length ≤ ctext.length then
      { st with
          chunks := st.chunks ++ [mkChunk digest url title st ctext]
          chunkIndex := st.chunkIndex + 1 }
    else st
  let ovp := takeOverlap cfg.chunk_overlap 0 st.current.reverse
  { st2 with current := ovp.1, currentLen := ovp.2 }

/-- Body of the `for sentence in sentences` loop of `chunk_text`. -/
def chunkStep (cfg : ChunkCfg) (digest : PyStr → PyStr) (url title : PyStr)
    (st : ChunkState) (sentence : PyStr) : ChunkState :=
  let sl := pyWordCount sentence
  let st1 :=
    if cfg.chunk_size < st.currentLen + sl ∧ st.current ≠ [] then
      chunkBoundary cfg digest url title st
    else st
  { st1 with current := st1.current ++ [sentence], currentLen := st1.currentLen + sl }

/-- The `# Add final chunk` block of `chunk_text`. -/
def chunkFinal (cfg : ChunkCfg) (digest : PyStr → PyStr) (url title : PyStr)
    (st : ChunkState) : List ChunkRec :=
  if st.current ≠ [] then
    let ctext := joinSp st.current
    if cfg.min_chunk_length ≤ ctext.length then
      st.chunks ++ [mkChunk digest url title st ctext]
    else st.chunks
  else st.chunks

/-- `ContentProcessor.chunk_text`. -/
def chunk_text (cfg : ChunkCfg) (digest : PyStr → PyStr)
    (text url title : PyStr) : List ChunkRec :=
  chunkFinal cfg digest url title
    ((splitSentences text).foldl (chunkStep cfg digest url title)
      { chunks := [], current := [], currentLen := 0, chunkIndex := 0 })

/-- Two chunks share at least one whitespace-separated word. -/
def wordOverlap (a b : ChunkRec) : Prop :=
  ∃ w ∈ pyWords a.content, w ∈ pyWords b.content

instance (a b : ChunkRec) : Decidable (wordOverlap a b) :=
  inferInstanceAs (Decidable (∃ w ∈ pyWords a.content, w ∈ pyWords b.content))

/-- Every pair of consecutive chunks in the list shares a word. -/
def chainOverlap : List ChunkRec → Prop
  | [] => True
  | [_] => True
  | a :: b :: rest => wordOverlap a b ∧ chainOverlap (b :: rest)

/-- Structural decision procedure for `chainOverlap`. -/
def chainOverlapDec : (l : List ChunkRec) → Decidable (chainOverlap l)
  | [] => .isTrue trivial
  | [_] => .isTrue trivial
  | _ :: b :: rest => @instDecidableAnd _ _ _ (chainOverlapDec (b :: rest))

instance (l : List ChunkRec) : Decidable (chainOverlap l) := chainOverlapDec l

theorem foldl_inv {α β : Type} (f : β → α → β) (P : β → Prop) (Q : α → Prop)
    (step : ∀ st a, Q a → P st → P (f st a)) :
    ∀ (l : List α) (st : β), (∀ a ∈ l, Q a) → P st → P (l.foldl f st) := by
  intro l
  induction l with
  | nil => intro st _ h; exact h
  | cons a rest ih =>
    intro st hq h
    exact ih (f st a) (fun x hx => hq x (List.mem_cons_of_mem _ hx))
      (step st a (hq a (List.mem_cons_self _ _)) h)

theorem takeOverlap_snd (ov : Nat) :
    ∀ (l : List PyStr) (olen : Nat),
      (takeOverlap ov olen l).2 = olen + (((takeOverlap ov olen l).1.map pyWordCount).sum) := by
  intro l
  induction l with
  | nil => intro olen; simp [takeOverlap]
  | cons s rest ih =>
    intro olen
    by_cases hle : olen + pyWordCount s ≤ ov
    · simp only [takeOverlap, hle, if_pos]
      rw [ih (olen + pyWordCount s)]
      simp [List.map_append]
      omega
    · simp [takeOverlap, hle]

theorem takeOverlap_subset (ov : Nat) :
    ∀ (l : List PyStr) (olen : Nat) (x : PyStr),
      x ∈ (takeOverlap ov olen l).1 → x ∈ l := by
  intro l
  induction l with
  | nil => intro olen x hx; simp [takeOverlap] at hx
  | cons s rest ih =>
    intro olen x hx
    by_cases hle : olen + pyWordCount s ≤ ov
    · simp only [takeOverlap, hle, if_pos] at hx
      rcases List.mem_append.1 hx with h | h
      · exact List.mem_cons_of_mem _ (ih _ x h)
      · simp at h; simp [h]
    · simp [takeOverlap, hle] at hx

theorem takeOverlap_head_mem {ov : Nat} {s : PyStr} {rest : List PyStr}
    (hfit : pyWordCount s ≤ ov) : s ∈ (takeOverlap ov 0 (s :: rest)).1 := by
  simp only [takeOverlap, Nat.zero_add, hfit, if_pos]
  simp

theorem mem_joinSp_append {w : PyStr} {l l2 : List PyStr}
    (h : w ∈ pyWords (joinSp l)) : w ∈ pyWords (joinSp (l ++ l2)) := by
  rw [pyWords_joinSp] at h ⊢
  rcases List.mem_flatten.1 h with ⟨ws, hws, hw⟩
  rcases List.mem_map.1 hws with ⟨s, hs, rfl⟩
  exact List.mem_flatten.2 ⟨pyWords s,
    List.mem_map_of_mem _ (List.mem_append_left _ hs), hw⟩

theorem chainOverlap_append_last :
    ∀ {l : List ChunkRec} {d : ChunkRec}, chainOverlap l →
      (∀ c, l.getLast? = some c → wordOverlap c d) → chainOverlap (l ++ [d]) := by
  intro l
  induction l with
  | nil => intro d _ _; exact trivial
  | cons a rest ih =>
    intro d h hlast
    cases rest with
    | nil => exact ⟨hlast a rfl, trivial⟩
    | cons b more =>
      have h' : chainOverlap (b :: more) := h.2
      have : chainOverlap ((b :: more) ++ [d]) :=
        ih h' (fun c hc => hlast c (by
          rw [List.getLast?_cons_cons]
          exact hc))
      exact ⟨h.1, this⟩

/-- Invariant used for claims about word counts and chunk indices: the
accumulated `current_length` always equals the total word count of the
sentences of `current_chunk`, every emitted chunk's `word_count` is the
word count of its content, every emitted chunk is at least
`min_chunk_length` characters long, the emitted `chunk_index`es are
exactly `0,...,chunk_index-1` in order, and every id is derived from
`(url, chunk_index)`. -/
def chunkInv (cfg : ChunkCfg) (digest : PyStr → PyStr) (url : PyStr)
    (st : ChunkState) : Prop :=
  st.currentLen = (st.current.map pyWordCount).sum ∧
  (∀ c ∈ st.chunks, c.word_count = pyWordCount c.content) ∧
  (∀ c ∈ st.chunks, cfg.min_chunk_length ≤ c.content.length) ∧
  st.chunks.map (fun c => c.chunk_index) = List.range st.chunkIndex ∧
  (∀ c ∈ st.chunks, c.id = generate_chunk_id digest url c.chunk_index)

theorem chunkBoundary_eq_pos {cfg : ChunkCfg} {digest : PyStr → PyStr}
    {url title : PyStr} {st : ChunkState}
    (hm : cfg.min_chunk_length ≤ (joinSp st.current).length) :
    chunkBoundary cfg digest url title st =
      { chunks := st.chunks ++ [mkChunk digest url title st (joinSp st.current)]
        current := (takeOverlap cfg.chunk_overlap 0 st.current.reverse).1
        currentLen := (takeOverlap cfg.chunk_overlap 0 st.current.reverse).2
        chunkIndex := st.chunkIndex + 1 } := by
  simp [chunkBoundary, hm]

theorem chunkBoundary_eq_neg {cfg : ChunkCfg} {digest : PyStr → PyStr}
    {url title : PyStr} {st : ChunkState}
    (hm : ¬ cfg.min_chunk_length ≤ (joinSp st.current).length) :
    chunkBoundary cfg digest url title st =
      { chunks := st.chunks
        current := (takeOverlap cfg.chunk_overlap 0 st.current.reverse).1
        currentLen := (takeOverlap cfg.chunk_overlap 0 st.current.reverse).2
        chunkIndex := st.chunkIndex } := by
  simp [chunkBoundary, hm]

theorem chunkStep_eq_pos {cfg : ChunkCfg} {digest : PyStr → PyStr}
    {url title : PyStr} {st : ChunkState} {sentence : PyStr}
    (hb : cfg.chunk_size < st.currentLen + pyWordCount sentence ∧ st.current ≠ []) :
    chunkStep cfg digest url title st sentence =
      { chunkBoundary cfg digest url title st with
          current := (chunkBoundary cfg digest url title st).current ++ [sentence]
          currentLen := (chunkBoundary cfg digest url title st).currentLen + pyWordCount sentence } := by
  simp [chunkStep, hb]

theorem chunkStep_eq_neg {cfg : ChunkCfg} {digest : PyStr → PyStr}
    {url title : PyStr} {st : ChunkState} {sentence : PyStr}
    (hb : ¬ (cfg.chunk_size < st.currentLen + pyWordCount sentence ∧ st.current ≠ [])) :
    chunkStep cfg digest url title st sentence =
      { st with
          current := st.current ++ [sentence]
          currentLen := st.currentLen + pyWordCount sentence } := by
  simp [chunkStep, hb]

theorem chunkBoundary_chunkInv {cfg : ChunkCfg} {digest : PyStr → PyStr}
    {url : PyStr} (title : PyStr) {st : ChunkState}
    (h : chunkInv cfg digest url st) :
    chunkInv cfg digest url (chunkBoundary cfg digest url title st) := by
  obtain ⟨hlen, hwc, hmin, hidx, hid⟩ := h
  by_cases hm : cfg.min_chunk_length ≤ (joinSp st.current).length
  · rw [chunkBoundary_eq_pos hm]
    refine ⟨?_, ?_, ?_, ?_, ?_⟩
    · simpa using takeOverlap_snd cfg.chunk_overlap st.current.reverse 0
    · intro c hc
      rcases List.mem_append.1 hc with hc | hc
      · exact hwc c hc
      · simp at hc; subst hc; simp [mkChunk, hlen, pyWordCount_joinSp]
    · intro c hc
      rcases List.mem_append.1 hc with hc | hc
      · exact hmin c hc
      · simp at hc; subst hc; simpa [mkChunk] using hm
    · simp [List.range_succ, hidx, mkChunk]
    · intro c hc
      rcases List.mem_append.1 hc with hc | hc
      · exact hid c hc
      · simp at hc; subst hc; simp [mkChunk]
  · rw [chunkBoundary_eq_neg hm]
    exact ⟨by simpa using takeOverlap_snd cfg.chunk_overlap st.current.reverse 0,
      hwc, hmin, hidx, hid⟩

theorem chunkStep_chunkInv (cfg : ChunkCfg) (digest : PyStr → PyStr)
    (url title : PyStr) (st : ChunkState) (sentence : PyStr)
    (h : chunkInv cfg digest url st) :
    chunkInv cfg digest url (chunkStep cfg digest url title st sentence) := by
  by_cases hb : cfg.chunk_size < st.currentLen + pyWordCount sentence ∧ st.current ≠ []
  · rw [chunkStep_eq_pos hb]
    obtain ⟨hlen, hwc, hmin, hidx, hid⟩ := chunkBoundary_chunkInv title h
    exact ⟨by simp [hlen], hwc, hmin, hidx, hid⟩
  · rw [chunkStep_eq_neg hb]
    obtain ⟨hlen, hwc, hmin, hidx, hid⟩ := h
    exact ⟨by simp [hlen], hwc, hmin, hidx, hid⟩

theorem chunkFinal_eq_emit {cfg : ChunkCfg} {digest : PyStr → PyStr}
    {url title : PyStr} {st : ChunkState} (hc : st.current ≠ [])
    (hm : cfg.min_chunk_length ≤ (joinSp st.current).length) :
    chunkFinal cfg digest url title st =
      st.chunks ++ [mkChunk digest url title st (joinSp st.current)] := by
  simp [chunkFinal, hc, hm]

theorem chunkFinal_eq_drop {cfg : ChunkCfg} {digest : PyStr → PyStr}
    {url title : PyStr} {st : ChunkState}
    (hm : ¬ cfg.min_chunk_length ≤ (joinSp st.current).length) :
    chunkFinal cfg digest url title st = st.chunks := by
  by_cases hc : st.current ≠ [] <;> simp [chunkFinal, hc, hm]

theorem chunkFinal_eq_nil {cfg : ChunkCfg} {digest : PyStr → PyStr}
    {url title : PyStr} {st : ChunkState} (hc : st.current = []) :
    chunkFinal cfg digest url title st = st.chunks := by
  simp [chunkFinal, hc]

theorem chunkFinal_chunkInv (cfg : ChunkCfg) (digest : PyStr → PyStr)
    (url title : PyStr) (st : ChunkState)
    (h : chunkInv cfg digest url st) :
    (∀ c ∈ chunkFinal cfg digest url title st, c.word_count = pyWordCount c.content) ∧
    (∀ c ∈ chunkFinal cfg digest url title st, cfg.min_chunk_length ≤ c.content.length) ∧
    ((chunkFinal cfg digest url title st).map (fun c => c.chunk_index) =
      List.range (chunkFinal cfg digest url title st).length) ∧
    (∀ c ∈ chunkFinal cfg digest url title st, c.id = generate_chunk_id digest url c.chunk_index) := by
  obtain ⟨hlen, hwc, hmin, hidx, hid⟩ := h
  have hcount : st.chunks.length = st.chunkIndex := by
    have := congrArg List.length hidx
    simpa using this
  by_cases hc : st.current = []
  · rw [chunkFinal_eq_nil hc]
    exact ⟨hwc, hmin, by rw [hidx, hcount], hid⟩
  · by_cases hm : cfg.min_chunk_length ≤ (joinSp st.current).length
    · rw [chunkFinal_eq_emit hc hm]
      refine ⟨?_, ?_, ?_, ?_⟩
      · intro c hcc
        rcases List.mem_append.1 hcc with hcc | hcc
        · exact hwc c hcc
        · simp at hcc; subst hcc; simp [mkChunk, hlen, pyWordCount_joinSp]
      · intro c hcc
        rcases List.mem_append.1 hcc with hcc | hcc
        · exact hmin c hcc
        · simp at hcc; subst hcc; simpa [mkChunk] using hm
      · simp [List.range_succ, hidx, mkChunk, hcount]
      · intro c hcc
        rcases List.mem_append.1 hcc with hcc | hcc
        · exact hid c hcc
        · simp at hcc; subst hcc; simp [mkChunk]
    · rw [chunkFinal_eq_drop hm]
      exact ⟨hwc, hmin, by rw [hidx, hcount], hid⟩

/-- Invariant for the consecutive-chunk overlap property, maintained
when `min_chunk_length = 0` (so no accumulation is dropped) and every
sentence fits inside the overlap budget `ov`: emitted chunks overlap
pairwise-consecutively, every pending sentence fits in the overlap and
has at least one word, and the most recently emitted chunk shares a word
with the pending accumulation. -/
def ovInv (ov : Nat) (st : ChunkState) : Prop :=
  chainOverlap st.chunks ∧
  (∀ s ∈ st.current, pyWordCount s ≤ ov ∧ pyWords s ≠ []) ∧
  (st.chunks ≠ [] → ∃ c, st.chunks.getLast? = some c ∧
    ∃ w ∈ pyWords c.content, w ∈ pyWords (joinSp st.current))

theorem last_mem_seed {ov : Nat} {st : ChunkState} (hne : st.current ≠ [])
    (h2 : ∀ s ∈ st.current, pyWordCount s ≤ ov ∧ pyWords s ≠ []) :
    ∃ lastS, lastS ∈ (takeOverlap ov 0 st.current.reverse).1 ∧
      lastS ∈ st.current ∧ pyWords lastS ≠ [] := by
  refine ⟨st.current.getLast hne, ?_, List.getLast_mem hne, (h2 _ (List.getLast_mem hne)).2⟩
  have hrev : st.current.reverse = st.current.getLast hne :: st.current.dropLast.reverse := by
    conv_lhs => rw [← List.dropLast_append_getLast hne]
    rw [List.reverse_append]
    simp
  rw [hrev]
  exact takeOverlap_head_mem (h2 _ (List.getLast_mem hne)).1

theorem chainOverlap_emit {digest : PyStr → PyStr} {url title : PyStr}
    {st : ChunkState}
    (h1 : chainOverlap st.chunks)
    (h3 : st.chunks ≠ [] → ∃ c, st.chunks.getLast? = some c ∧
      ∃ w ∈ pyWords c.content, w ∈ pyWords (joinSp st.current)) :
    chainOverlap (st.chunks ++ [mkChunk digest url title st (joinSp st.current)]) := by
  apply chainOverlap_append_last h1
  intro cl hcl
  have hne : st.chunks ≠ [] := by
    intro hn; rw [hn] at hcl; simp at hcl
  obtain ⟨c0, hc0, w, hw1, hw2⟩ := h3 hne
  rw [hcl] at hc0
  cases hc0
  exact ⟨w, hw1, by simpa [mkChunk] using hw2⟩

theorem chunkStep_ovInv {cfg : ChunkCfg} {digest : PyStr → PyStr}
    {url title : PyStr} (hmin : cfg.min_chunk_length = 0)
    (st : ChunkState) (sentence : PyStr)
    (hq : pyWordCount sentence ≤ cfg.chunk_overlap ∧ pyWords sentence ≠ [])
    (h : ovInv cfg.chunk_overlap st) :
    ovInv cfg.chunk_overlap (chunkStep cfg digest url title st sentence) := by
  obtain ⟨h1, h2, h3⟩ := h
  by_cases hb : cfg.chunk_size < st.currentLen + pyWordCount sentence ∧ st.current ≠ []
  · have hm : cfg.min_chunk_length ≤ (joinSp st.current).length := by
      rw [hmin]; exact Nat.zero_le _
    rw [chunkStep_eq_pos hb, chunkBoundary_eq_pos hm]
    obtain ⟨lastS, hseed, hcur, hwords⟩ := last_mem_seed hb.2 h2
    obtain ⟨w, hw⟩ := List.exists_mem_of_ne_nil _ hwords
    refine ⟨chainOverlap_emit h1 h3, ?_, ?_⟩
    · intro s hs
      rcases List.mem_append.1 hs with hs | hs
      · exact h2 s (List.mem_reverse.1 (takeOverlap_subset _ _ _ _ hs))
      · simp at hs; subst hs; exact hq
    · intro _
      refine ⟨mkChunk digest url title st (joinSp st.current), ?_, w, ?_, ?_⟩
      · simp
      · simpa [mkChunk] using mem_pyWords_joinSp hcur hw
      · exact mem_joinSp_append (mem_pyWords_joinSp hseed hw)
  · rw [chunkStep_eq_neg hb]
    refine ⟨h1, ?_, ?_⟩
    · intro s hs
      rcases List.mem_append.1 hs with hs | hs
      · exact h2 s hs
      · simp at hs; subst hs; exact hq
    · intro hne
      obtain ⟨c0, hc0, w, hw1, hw2⟩ := h3 hne
      exact ⟨c0, hc0, w, hw1, mem_joinSp_append hw2⟩

theorem chunk_text_chainOverlap (cfg : ChunkCfg) (digest : PyStr → PyStr)
    (text url title : PyStr) (hmin : cfg.min_chunk_length = 0)
    (hsent : ∀ s ∈ splitSentences text, pyWordCount s ≤ cfg.chunk_overlap) :
    chainOverlap (chunk_text cfg digest text url title) := by
  have hfold : ovInv cfg.chunk_overlap
      ((splitSentences text).foldl (chunkStep cfg digest url title)
        { chunks := [], current := [], currentLen := 0, chunkIndex := 0 }) := by
    refine foldl_inv (chunkStep cfg digest url title) (ovInv cfg.chunk_overlap)
      (fun s => pyWordCount s ≤ cfg.chunk_overlap ∧ pyWords s ≠ [])
      (fun st a hqa hst => chunkStep_ovInv hmin st a hqa hst)
      (splitSentences text) _
      (fun s hs => ⟨hsent s hs, splitSentences_has_word hs⟩) ?_
    exact ⟨trivial, by simp, by simp⟩
  set stf := (splitSentences text).foldl (chunkStep cfg digest url title)
    { chunks := [], current := [], currentLen := 0, chunkIndex := 0 }
  obtain ⟨h1, h2, h3⟩ := hfold
  unfold chunk_text
  by_cases hc : stf.current = []
  · rw [chunkFinal_eq_nil hc]
    exact h1
  · have hm : cfg.min_chunk_length ≤ (joinSp stf.current).length := by
      rw [hmin]; exact Nat.zero_le _
    rw [chunkFinal_eq_emit hc hm]
    exact chainOverlap_emit h1 h3

/-! ## AnswerGenerator (`answer_generator.py`) -/

/-- A citation dict built by `AnswerGenerator._extract_citations`. -/
structure Citation where
  url : PyStr
  title : PyStr
  excerpt : PyStr
  chunk_id : PyStr
  relevance_score : ℚ
deriving Repr, DecidableEq

/-- The answer dict returned by `AnswerGenerator.generate_answer`
(`missing_information` is `none` when the Python code leaves it `None`). -/
structure AnswerResult where
  answer : PyStr
  citations : List Citation
  confidence : ℚ
  missing_information : Option (List PyStr)
deriving Repr, DecidableEq

/-- Python `round(x, 2)`.  Exact ties between two multiples of `1/100`
are resolved half-up here rather than by float banker's rounding; no
claim in this development depends on the tie direction. -/
def round2 (q : ℚ) : ℚ := (round (100 * q) : ℤ) / 100

/-- `AnswerGenerator._calculate_confidence`. -/
def calculate_confidence (answer : PyStr) (citations : List Citation)
    (chunks : List (ChunkRec × ℚ)) : ℚ :=
  if chunks.isEmpty then 0
  else
    let citation_score : ℚ := min ((citations.length : ℚ) / 3) 1
    let avg_relevance : ℚ :=
      ((chunks.take 3).map Prod.snd).sum / ((min chunks.length 3 : Nat) : ℚ)
    let word_count : Nat := pyWordCount answer
    let length_score : ℚ := min ((word_count : ℚ) / 100) 1
    round2 (citation_score * (0.4 : ℚ) + avg_relevance * (0.4 : ℚ) + length_score * (0.2 : ℚ))

/-- `AnswerGenerator._create_context`: one numbered `[Source i]` block
per retrieved chunk, joined with newlines. -/
def create_context (chunks : List (ChunkRec × ℚ)) : PyStr :=
  joinWith ['\n'] (chunks.enum.map (fun p =>
    str "[Source " ++ Nat.toDigits 10 (p.1 + 1) ++ str "] (URL: " ++ p.2.1.url ++
    str ", Title: " ++ p.2.1.title ++ str ")" ++ '\n' :: p.2.1.content ++ ['\n']))

/-- `AnswerGenerator._build_prompt`. -/
def build_prompt (question context : PyStr) : PyStr :=
  str "You are a research assistant that provides evidence-based answers. \n\nSTRICT RULES:\n1. Answer ONLY based on the provided sources below\n2. Include at least one citation [Source N] per paragraph\n3. If information is insufficient, explicitly state what\x27s missing\n4. Never fabricate or assume information not in the sources\n5. Keep citations concise (max 25 words from source)\n\nSOURCES:\n" ++
  context ++ str "\n\nQUESTION: " ++ question ++
  str "\n\nProvide a well-structured answer with inline citations [Source N]. If you cannot fully answer the question, explain what information is missing."

/-- Whether `pat` is an initial segment of `s`. -/
def listStartsWith : PyStr → PyStr → Bool
  | [], _ => true
  | _ :: _, [] => false
  | p :: ps, c :: cs => p == c && listStartsWith ps cs

/-- Python `pat in s` (substring containment). -/
def containsSub (pat : PyStr) : PyStr → Bool
  | [] => listStartsWith pat []
  | c :: cs => listStartsWith pat (c :: cs) || containsSub pat cs

/-- Python `s.lower()` (ASCII case folding). -/
def pyLower (s : PyStr) : PyStr := s.map Char.toLower

/-- Python `s.split(sep)` for a single-character separator: keeps empty
pieces, unlike argumentless `split()`. -/
def pySplitCharAux (sep : Char) (acc : PyStr) : PyStr → List PyStr
  | [] => [acc.reverse]
  | c :: cs =>
    if c = sep then acc.reverse :: pySplitCharAux sep [] cs
    else pySplitCharAux sep (c :: acc) cs

/-- Python `s.split(sep)` for a single-character separator. -/
def pySplitChar (sep : Char) (s : PyStr) : List PyStr := pySplitCharAux sep [] s

/-- Consume a run of decimal digits, Python `int`-style, extending the
accumulator `acc`; returns the value and the unconsumed remainder. -/
def readDigits : PyStr → Nat → Nat × PyStr
  | [], acc => (acc, [])
  | c :: cs, acc =>
    if c.isDigit then readDigits cs (acc * 10 + (c.toNat - 48)) else (acc, c :: cs)

/-- Match the regex `\[Source (\d+)\]` at the start of `s`, returning the
captured number. -/
def matchSourceAt (s : PyStr) : Option Nat :=
  match stripLit (str "[Source ") s with
  | none => none
  | some r =>
    match r with
    | [] => none
    | c :: cs =>
      if c.isDigit then
        match readDigits cs (c.toNat - 48) with
        | (n, rest) =>
          match rest with
          | ']' :: _ => some n
          | _ => none
      else none
where
  /-- Strip the literal `pat` from the front of a string. -/
  stripLit : PyStr → PyStr → Option PyStr
    | [], s => some s
    | _ :: _, [] => none
    | p :: ps, c :: cs => if p = c then stripLit ps cs else none

/-- `re.finditer(r'\[Source (\d+)\]', answer)` in order of occurrence.
Scanning advances one character at a time; this agrees with the
non-overlapping scan of `finditer` because a match contains `[` only at
its first character, so no new match can begin inside a previous one. -/
def scanSource : PyStr → List Nat
  | [] => []
  | c :: cs =>
    match matchSourceAt (c :: cs) with
    | some n => n :: scanSource cs
    | none => scanSource cs

/-- Build one citation dict from a referenced chunk:
the excerpt is the first `max_excerpt_length` words, with an ellipsis
marker when truncated. -/
def mkCitation (max_excerpt_length : Nat) (chunk : ChunkRec) (score : ℚ) : Citation :=
  let words := pyWords chunk.content
  let excerpt0 := joinSp (words.take max_excerpt_length)
  let excerpt :=
    if max_excerpt_length < words.length then excerpt0 ++ str "..." else excerpt0
  { url := chunk.url, title := chunk.title, excerpt := excerpt,
    chunk_id := chunk.id, relevance_score := score }

/-- `AnswerGenerator._extract_citations`: scan `[Source N]` markers in
order; a marker produces a citation when `N-1` is in range and not yet
cited (`source_num = int(N) - 1`, and `0 <= source_num` rules out
`[Source 0]`). -/
def extract_citations (max_excerpt_length : Nat) (answer : PyStr)
    (chunks : List (ChunkRec × ℚ)) : List Citation :=
  ((scanSource answer).foldl
    (fun (acc : List Citation × List Nat) n =>
      if h : 1 ≤ n ∧ n - 1 < chunks.length ∧ ¬ acc.2.contains (n - 1) then
        let p := chunks.get ⟨n - 1, h.2.1⟩
        (acc.1 ++ [mkCitation max_excerpt_length p.1 p.2], acc.2 ++ [n - 1])
      else acc)
    ([], [])).1

/-- `AnswerGenerator._identify_missing_information` (only the `answer`
argument is inspected by the source). -/
def identify_missing_information (question answer : PyStr)
    (chunks : List (ChunkRec × ℚ)) : List PyStr :=
  let markers := [str "i don\x27t have", str "insufficient", str "unclear",
    str "not enough", str "missing", str "cannot determine", str "unable to"]
  let answer_lower := pyLower answer
  let missing :=
    match markers.find? (fun m => containsSub m answer_lower) with
    | some m =>
      ((pySplitChar '.' answer).filter (fun s => containsSub m (pyLower s))).map pyStrip
    | none => []
  if missing.isEmpty then
    [str "Coverage appears incomplete based on available sources"]
  else missing

/-- `AnswerGenerator.generate_answer`.  The completion provider call
(`_generate_openai`/`_generate_gemini`, both external API clients) is
the parameter `complete`; a raised provider exception is modelled by
`Except.error`.  The function is total: provider errors are mapped to
the fixed error answer, never re-raised. -/
def generate_answer (max_excerpt_length : Nat)
    (complete : PyStr → Except PyStr PyStr) (question : PyStr)
    (retrieved_chunks : List (ChunkRec × ℚ)) (min_confidence : ℚ) : AnswerResult :=
  if retrieved_chunks.isEmpty then
    { answer := str "I don\x27t have enough information to answer this question."
      citations := []
      confidence := 0
      missing_information := some [str "No relevant sources found"] }
  else
    let context := create_context retrieved_chunks
    let prompt := build_prompt question context
    match complete prompt with
    | .error _ =>
      { answer := str "An error occurred while generating the answer."
        citations := []
        confidence := 0
        missing_information := some [str "Generation error"] }
    | .ok answer_text =>
      let citations := extract_citations max_excerpt_length answer_text retrieved_chunks
      let confidence := calculate_confidence answer_text citations retrieved_chunks
      let missing_information :=
        if confidence < min_confidence then
          some (identify_missing_information question answer_text retrieved_chunks)
        else none
      { answer := answer_text, citations := citations, confidence := confidence,
        missing_information := missing_information }

/-! ## VectorStore (`vector_store.py`)

The FAISS `IndexFlatIP` is modelled by the list of stored vectors
(`ntotal` is its length); `faiss.normalize_L2` (which involves real
square roots) is an abstract parameter `normalize`; the Python dict
`id_to_index` is an insertion-ordered association list with unique keys. -/

/-- An embedding vector (numpy row) with rational entries. -/
abbrev Vec := List ℚ

/-- Inner product, the score produced by `IndexFlatIP`. -/
def dot (u v : Vec) : ℚ := (List.zipWith (fun a b => a * b) u v).sum

/-- In-memory state of an initialized `VectorStore`. -/
structure VSState where
  vectors : List Vec
  metadata : List ChunkRec
  id_to_index : List (PyStr × Nat)
deriving Repr, DecidableEq

/-- `VectorStore.initialize_index` (fresh FAISS index, empty metadata and
id map). -/
def initial_index : VSState := { vectors := [], metadata := [], id_to_index := [] }

/-- Python dict read `d.get(k)`. -/
def dictLookup (d : List (PyStr × Nat)) (k : PyStr) : Option Nat :=
  (d.find? (fun p => p.1 == k)).map Prod.snd

/-- Python dict write `d[k] = v`: replace the binding in place when the
key is present, otherwise append a new binding. -/
def dictInsert (d : List (PyStr × Nat)) (k : PyStr) (v : Nat) : List (PyStr × Nat) :=
  if (d.find? (fun p => p.1 == k)).isSome then
    d.map (fun p => if p.1 == k then (k, v) else p)
  else d ++ [(k, v)]

/-- `VectorStore.add_embeddings`: normalize and append the vectors, then
append each metadata dict, mapping its id to offset `start_idx + i`. -/
def add_embeddings (normalize : Vec → Vec) (vs : VSState)
    (embeddings : List Vec) (chunks_metadata : List ChunkRec) : VSState :=
  let start_idx := vs.metadata.length
  let vs1 := { vs with vectors := vs.vectors ++ embeddings.map normalize }
  chunks_metadata.enum.foldl
    (fun (s : VSState) p =>
      { s with
          metadata := s.metadata ++ [p.2]
          id_to_index := dictInsert s.id_to_index p.2.id (start_idx + p.1) })
    vs1

/-- Descending-score order on FAISS search hits. -/
def scoreGe (a b : Nat × ℚ) : Prop := b.2 ≤ a.2

instance : DecidableRel scoreGe := fun a b => inferInstanceAs (Decidable (b.2 ≤ a.2))

instance : IsTotal (Nat × ℚ) scoreGe := ⟨fun a b => le_total b.2 a.2⟩

instance : IsTrans (Nat × ℚ) scoreGe := ⟨fun _ _ _ h1 h2 => le_trans h2 h1⟩

/-- The FAISS `IndexFlatIP.search` contract: the `k` stored vectors with
the largest inner product against the query, as `(row index, score)`
pairs sorted by descending score. -/
def faissSearch (vectors : List Vec) (q : Vec) (k : Nat) : List (Nat × ℚ) :=
  ((vectors.enum.map (fun p => (p.1, dot q p.2))).insertionSort scoreGe).take k

/-- `VectorStore.search`: empty-index short circuit, `k = min(top_k,
len(metadata))`, FAISS search, then keep hits whose row index is within
the metadata list, pairing each with its metadata dict. -/
def search (normalize : Vec → Vec) (vs : VSState) (query_embedding : Vec)
    (top_k : Nat) : List (ChunkRec × ℚ) :=
  if vs.metadata.length = 0 then []
  else
    let q := normalize query_embedding
    let k := min top_k vs.metadata.length
    (faissSearch vs.vectors q k).filterMap
      (fun p =>
        if h : p.1 < vs.metadata.length then some (vs.metadata.get ⟨p.1, h⟩, p.2)
        else none)

/-- The §3 `IndexEntry` invariant: the keys of `id_to_index` are unique,
its values are exactly the offsets `[0, count)` (together: the map is a
bijection from chunk ids onto `[0, count)`), and `count = len(metadata)`
equals the number of vectors stored in the FAISS index. -/
def vsInvariant (vs : VSState) : Prop :=
  (vs.id_to_index.map Prod.fst).Nodup ∧
  (vs.id_to_index.map Prod.snd).Perm (List.range vs.metadata.length) ∧
  vs.vectors.length = vs.metadata.length

instance (vs : VSState) : Decidable (vsInvariant vs) :=
  inferInstanceAs (Decidable (_ ∧ _ ∧ _))

theorem dictLookup_eq_none {d : List (PyStr × Nat)} {k : PyStr} :
    dictLookup d k = none ↔ k ∉ d.map Prod.fst := by
  unfold dictLookup
  rw [Option.map_eq_none', List.find?_eq_none]
  constructor
  · intro h hk
    rcases List.mem_map.1 hk with ⟨p, hp, rfl⟩
    exact h p hp (by simp)
  · intro h p hp hpk
    exact h (List.mem_map.2 ⟨p, hp, by simpa using hpk⟩)

theorem dictInsert_fresh {d : List (PyStr × Nat)} {k : PyStr} {v : Nat}
    (h : dictLookup d k = none) : dictInsert d k v = d ++ [(k, v)] := by
  unfold dictInsert
  unfold dictLookup at h
  rw [Option.map_eq_none'] at h
  simp [h]

theorem dictLookup_append_nfresh {d e : List (PyStr × Nat)} {k : PyStr}
    (hd : dictLookup d k = none) (he : dictLookup e k = none) :
    dictLookup (d ++ e) k = none := by
  unfold dictLookup at *
  rw [Option.map_eq_none'] at *
  rw [List.find?_append, hd, he]
  rfl

theorem addFold_spec (start : Nat) :
    ∀ (metas : List ChunkRec) (n : Nat) (s : VSState),
      (∀ m ∈ metas, dictLookup s.id_to_index m.id = none) →
      (metas.map (fun m => m.id)).Nodup →
      ((metas.enumFrom n).foldl
        (fun (st : VSState) p =>
          { st with
              metadata := st.metadata ++ [p.2]
              id_to_index := dictInsert st.id_to_index p.2.id (start + p.1) })
        s) =
      { s with
          metadata := s.metadata ++ metas
          id_to_index := s.id_to_index ++
            (metas.enumFrom n).map (fun p => (p.2.id, start + p.1)) } := by
  intro metas
  induction metas with
  | nil => intro n s _ _; simp
  | cons m rest ih =>
    intro n s hfresh hnodup
    have hm : dictLookup s.id_to_index m.id = none :=
      hfresh m (List.mem_cons_self _ _)
    have hins := @dictInsert_fresh s.id_to_index m.id (start + n) hm
    simp only [List.enumFrom_cons, List.foldl_cons]
    rw [hins]
    have hrest :
        ∀ x ∈ rest, dictLookup (s.id_to_index ++ [(m.id, start + n)]) x.id = none := by
      intro x hx
      apply dictLookup_append_nfresh (hfresh x (List.mem_cons_of_mem _ hx))
      have hxid : x.id ≠ m.id := by
        intro hcon
        apply (List.nodup_cons.1 hnodup).1
        have hmm := List.mem_map_of_mem (fun m => m.id) hx
        simpa [hcon] using hmm
      simp [dictLookup, Ne.symm hxid]
    have := ih (n + 1)
      { s with
          metadata := s.metadata ++ [m]
          id_to_index := s.id_to_index ++ [(m.id, start + n)] }
      hrest (List.nodup_cons.1 hnodup).2
    rw [this]
    simp

theorem enumFrom_map_pair_fst (start : Nat) :
    ∀ (xs : List ChunkRec) (n : Nat),
      ((xs.enumFrom n).map (fun p => (p.2.id, start + p.1))).map Prod.fst =
        xs.map (fun m => m.id) := by
  intro xs
  induction xs with
  | nil => intro n; simp
  | cons x rest ih => intro n; simp [ih (n + 1)]

theorem enumFrom_map_pair_snd (start : Nat) :
    ∀ (xs : List ChunkRec) (n : Nat),
      ((xs.enumFrom n).map (fun p => (p.2.id, start + p.1))).map Prod.snd =
        (List.range' n xs.length).map (start + ·) := by
  intro xs
  induction xs with
  | nil => intro n; simp
  | cons x rest ih => intro n; simp [ih (n + 1), List.range']

theorem add_embeddings_invariant (normalize : Vec → Vec) (vs : VSState)
    (embeddings : List Vec) (chunks_metadata : List ChunkRec)
    (hinv : vsInvariant vs)
    (hnodup : (chunks_metadata.map (fun m => m.id)).Nodup)
    (hfresh : ∀ m ∈ chunks_metadata, dictLookup vs.id_to_index m.id = none)
    (hlen : embeddings.length = chunks_metadata.length) :
    vsInvariant (add_embeddings normalize vs embeddings chunks_metadata) := by
  obtain ⟨hkeys, hperm, hcnt⟩ := hinv
  unfold add_embeddings
  simp only [List.enum]
  rw [addFold_spec vs.metadata.length chunks_metadata 0
    { vs with vectors := vs.vectors ++ embeddings.map normalize } hfresh hnodup]
  refine ⟨?_, ?_, ?_⟩
  · rw [List.map_append, List.nodup_append]
    refine ⟨hkeys, ?_, ?_⟩
    · rw [enumFrom_map_pair_fst]
      exact hnodup
    · intro a ha hb
      rw [enumFrom_map_pair_fst] at hb
      rcases List.mem_map.1 hb with ⟨m0, hm0, rfl⟩
      exact dictLookup_eq_none.1 (hfresh m0 hm0) ha
  · rw [List.map_append, List.length_append, enumFrom_map_pair_snd]
    rw [show List.range' 0 chunks_metadata.length = List.range chunks_metadata.length
      from (List.range_eq_range' _).symm]
    rw [List.range_add]
    exact hperm.append (List.Perm.refl _)
  · simp [hcnt, hlen]

theorem search_spec (normalize : Vec → Vec) (vs : VSState)
    (query_embedding : Vec) (top_k : Nat)
    (hsync : vs.vectors.length = vs.metadata.length) :
    (search normalize vs query_embedding top_k).length ≤ min top_k vs.metadata.length ∧
    List.Pairwise (fun a b : ChunkRec × ℚ => b.2 ≤ a.2)
      (search normalize vs query_embedding top_k) ∧
    (vs.vectors.length = 0 → search normalize vs query_embedding top_k = []) := by
  by_cases hz : vs.metadata.length = 0
  · simp [search, hz]
  · have hsearch : search normalize vs query_embedding top_k =
        (faissSearch vs.vectors (normalize query_embedding)
          (min top_k vs.metadata.length)).filterMap
          (fun p =>
            if h : p.1 < vs.metadata.length then some (vs.metadata.get ⟨p.1, h⟩, p.2)
            else none) := by
      simp [search, hz]
    refine ⟨?_, ?_, ?_⟩
    · rw [hsearch]
      calc _ ≤ (faissSearch vs.vectors (normalize query_embedding)
            (min top_k vs.metadata.length)).length := List.length_filterMap_le _ _
        _ ≤ min top_k vs.metadata.length := by
            unfold faissSearch
            simp
    · rw [hsearch]
      have hsorted : List.Pairwise scoreGe
          ((vs.vectors.enum.map
            (fun p => (p.1, dot (normalize query_embedding) p.2))).insertionSort scoreGe) :=
        List.sorted_insertionSort scoreGe _
      have htake : List.Pairwise scoreGe
          (faissSearch vs.vectors (normalize query_embedding)
            (min top_k vs.metadata.length)) := by
        unfold faissSearch
        exact hsorted.take
      refine htake.filterMap _ ?_
      intro a b hab x hx y hy
      by_cases ha : a.1 < vs.metadata.length
      · by_cases hb : b.1 < vs.metadata.length
        · simp only [ha, hb, dif_pos, Option.mem_def, Option.some_inj] at hx hy
          rw [← hx, ← hy]
          exact hab
        · simp [hb] at hy
      · simp [ha] at hx
    · intro hzero
      rw [hsync] at hzero
      exact absurd hzero hz

/-! ## WebCrawler (`crawler.py`)

The network fetch (`fetch_page`, with its retry/backoff loop around
`httpx`) is the parameter `fetch` returning `none` when all retries are
exhausted or the content is not HTML; URL normalisation
(`_normalize_url`, built on `urllib.parse`) and the domain allowlist
test (`_is_allowed_domain`) are the parameters `normalize` and
`allowed`.  Timestamps, status codes and the polite `asyncio.sleep`
delay do not influence the traversal and are omitted. -/

/-- The page dict returned by `WebCrawler.fetch_page`. -/
structure PageData where
  url : PyStr
  title : PyStr
  html_content : PyStr
  links : List PyStr
  content_hash : PyStr
deriving Repr, DecidableEq

/-- The crawl limits from `WebCrawler.__init__`. -/
structure CrawlCfg where
  max_pages : Nat
  max_depth : Nat
deriving Repr, DecidableEq

/-- The `while queue and len(results) < self.max_pages` loop of
`WebCrawler.crawl`, over the state `(queue, visited_urls, seen_hashes,
results)`.  Each result is stored with the depth at which its URL was
dequeued (the depth is recorded here so that properties about it can be
stated; the Python dict does not carry it). -/
def crawlLoop (cfg : CrawlCfg) (fetch : PyStr → Option PageData)
    (normalize : PyStr → PyStr) (allowed : PyStr → Bool) :
    List (PyStr × Nat) → List PyStr → List PyStr → List (Nat × PageData) →
    List (Nat × PageData)
  | [], _, _, results => results
  | (url, depth) :: rest, visited, seen, results =>
    if results.length < cfg.max_pages then
      let normalized_url := normalize url
      if normalized_url ∈ visited ∨ cfg.max_depth < depth then
        crawlLoop cfg fetch normalize allowed rest visited seen results
      else if allowed normalized_url then
        let visited' := normalized_url :: visited
        match fetch normalized_url with
        | none => crawlLoop cfg fetch normalize allowed rest visited' seen results
        | some page_data =>
          if page_data.content_hash ∈ seen then
            crawlLoop cfg fetch normalize allowed rest visited' seen results
          else
            let seen' := page_data.content_hash :: seen
            let results' := results ++ [(depth, page_data)]
            let queue' :=
              if depth < cfg.max_depth ∧ results'.length < cfg.max_pages then
                rest ++ (page_data.links.filter
                  (fun l => !(visited'.contains l))).map (fun l => (l, depth + 1))
              else rest
            crawlLoop cfg fetch normalize allowed queue' visited' seen' results'
      else
        crawlLoop cfg fetch normalize allowed rest visited seen results
    else results
termination_by queue _ _ results => (cfg.max_pages - results.length, queue.length)
decreasing_by
  all_goals simp_wf
  all_goals
    first
      | (apply Prod.Lex.right; omega)
      | (apply Prod.Lex.left; omega)

/-- `WebCrawler.crawl`: seed the FIFO frontier at depth `0` with a fresh
traversal state and run the loop. -/
def crawl (cfg : CrawlCfg) (fetch : PyStr → Option PageData)
    (normalize : PyStr → PyStr) (allowed : PyStr → Bool)
    (seed_urls : List PyStr) : List (Nat × PageData) :=
  crawlLoop cfg fetch normalize allowed
    (seed_urls.map (fun url => (url, 0))) [] [] []

theorem crawlLoop_inv (cfg : CrawlCfg) (fetch : PyStr → Option PageData)
    (normalize : PyStr → PyStr) (allowed : PyStr → Bool)
    (queue : List (PyStr × Nat)) (visited seen : List PyStr)
    (results : List (Nat × PageData)) :
    results.length ≤ cfg.max_pages →
    (∀ p ∈ results, p.1 ≤ cfg.max_depth) →
    List.Pairwise (fun a b : Nat × PageData =>
      a.2.content_hash ≠ b.2.content_hash) results →
    (∀ p ∈ results, p.2.content_hash ∈ seen) →
    (crawlLoop cfg fetch normalize allowed queue visited seen results).length ≤ cfg.max_pages ∧
    (∀ p ∈ crawlLoop cfg fetch normalize allowed queue visited seen results,
      p.1 ≤ cfg.max_depth) ∧
    List.Pairwise (fun a b : Nat × PageData => a.2.content_hash ≠ b.2.content_hash)
      (crawlLoop cfg fetch normalize allowed queue visited seen results) := by
  induction queue, visited, seen, results using crawlLoop.induct cfg fetch normalize allowed with
  | case1 visited seen results =>
    intro h1 h2 h3 _
    simp only [crawlLoop]
    exact ⟨h1, h2, h3⟩
  | case2 url depth rest visited seen results hcont nurl hskip ih =>
    intro h1 h2 h3 h4
    simp only [crawlLoop, if_pos hcont, if_pos hskip]
    exact ih h1 h2 h3 h4
  | case3 url depth rest visited seen results hcont nurl hskip hallow visited' hfetch ih =>
    intro h1 h2 h3 h4
    simp only [crawlLoop, if_pos hcont, if_neg hskip, if_pos hallow, hfetch]
    exact ih h1 h2 h3 h4
  | case4 url depth rest visited seen results hcont nurl hskip hallow visited' page_data hfetch hdup ih =>
    intro h1 h2 h3 h4
    simp only [crawlLoop, if_pos hcont, if_neg hskip, if_pos hallow, hfetch,
      if_pos hdup]
    exact ih h1 h2 h3 h4
  | case5 url depth rest visited seen results hcont nurl hskip hallow visited' page_data hfetch hnew seen' results' queue' ih =>
    intro h1 h2 h3 h4
    simp only [crawlLoop, if_pos hcont, if_neg hskip, if_pos hallow, hfetch,
      if_neg hnew]
    apply ih
    · simp only [results', List.length_append, List.length_singleton]
      omega
    · intro p hp
      rcases List.mem_append.1 hp with hp | hp
      · exact h2 p hp
      · simp at hp
        subst hp
        have : ¬ cfg.max_depth < depth := fun hlt => hskip (Or.inr hlt)
        omega
    · rw [List.pairwise_append]
      refine ⟨h3, List.pairwise_singleton _ _, ?_⟩
      intro a ha b hb
      simp at hb
      subst hb
      intro hcon
      exact hnew (hcon ▸ h4 a ha)
    · intro p hp
      rcases List.mem_append.1 hp with hp | hp
      · exact List.mem_cons_of_mem _ (h4 p hp)
      · simp at hp
        subst hp
        exact List.mem_cons_self _ _
  | case6 url depth rest visited seen results hcont nurl hskip hallow ih =>
    intro h1 h2 h3 h4
    simp only [crawlLoop, if_pos hcont, if_neg hskip, if_neg hallow]
    exact ih h1 h2 h3 h4
  | case7 url depth rest visited seen results hcont =>
    intro h1 h2 h3 _
    simp only [crawlLoop, if_neg hcont]
    exact ⟨h1, h2, h3⟩

theorem crawl_spec (cfg : CrawlCfg) (fetch : PyStr → Option PageData)
    (normalize : PyStr → PyStr) (allowed : PyStr → Bool)
    (seed_urls : List PyStr) :
    (crawl cfg fetch normalize allowed seed_urls).length ≤ cfg.max_pages ∧
    (∀ p ∈ crawl cfg fetch normalize allowed seed_urls, p.1 ≤ cfg.max_depth) ∧
    List.Pairwise (fun a b : Nat × PageData => a.2.content_hash ≠ b.2.content_hash)
      (crawl cfg fetch normalize allowed seed_urls) := by
  unfold crawl
  exact crawlLoop_inv cfg fetch normalize allowed _ [] [] []
    (by simp) (by simp) (by simp) (by simp)

/-! ## ContentProcessor.process_page and IngestionService
(`content_processor.py`, `ingestion_service.py`)

HTML cleaning (`clean_html`, built on BeautifulSoup) is the parameter
`clean`.  The MongoDB job store is modelled by the trace of job-record
states written for the job; ids and timestamps are external.  The
crawl, the embedding provider and the vector-store mutation are
effects supplied in `IngestEff`; a raised exception is an
`Except.error`/`Option.some` payload. -/

/-- The processed-page dict returned by `ContentProcessor.process_page`. -/
structure ProcessedPage where
  url : PyStr
  title : PyStr
  content_hash : PyStr
  clean_text : PyStr
  word_count : Nat
  chunks : List ChunkRec
deriving Repr, DecidableEq

/-- `ContentProcessor.process_page`: clean, reject pages under 50 words
(returns `None`), otherwise chunk.  The `except` branch that also
returns `None` has no counterpart here because the modelled body is
total. -/
def process_page (cfg : ChunkCfg) (digest clean : PyStr → PyStr)
    (page_data : PageData) : Option ProcessedPage :=
  let clean_text := clean page_data.html_content
  let word_count := pyWordCount clean_text
  if word_count < 50 then none
  else some
    { url := page_data.url
      title := page_data.title
      content_hash := page_data.content_hash
      clean_text := clean_text
      word_count := word_count
      chunks := chunk_text cfg digest clean_text page_data.url page_data.title }

/-- Job lifecycle states of `IngestJob.status`. -/
inductive JobStatus
  | pending
  | running
  | completed
  | failed
deriving Repr, DecidableEq

/-- The job-record fields mutated by `IngestionService._process_ingestion`
(ids and timestamps are external concerns). -/
structure JobRec where
  status : JobStatus
  pages_processed : Nat
  total_pages : Nat
  progress : ℚ
  error_message : Option PyStr
deriving Repr, DecidableEq

/-- External effects of one `_process_ingestion` run: the pages the
crawl returns, the `(pages_processed, total_pages)` pairs passed to
`progress_callback` while crawling, an exception escaping the crawl
after those updates (if any), the embedding provider, and an exception
from the vector-store add/save step (if any). -/
structure IngestEff where
  crawlPages : List PageData
  callbacks : List (Nat × Nat)
  crawlError : Option PyStr
  embedResult : List PyStr → Except PyStr (List Vec)
  addSaveError : Option PyStr

/-- One `progress_callback(processed, total)` database update: sets
`pages_processed`, `total_pages` and `progress = processed/total`
(0 when `total = 0`), leaving `status` untouched. -/
def applyCallback (j : JobRec) (pt : Nat × Nat) : JobRec :=
  { j with
      pages_processed := pt.1
      total_pages := pt.2
      progress := if 0 < pt.2 then (pt.1 : ℚ) / (pt.2 : ℚ) else 0 }

/-- The successive job-record states written by the progress callbacks. -/
def cbStates (j : JobRec) : List (Nat × Nat) → List JobRec
  | [] => []
  | pt :: rest => applyCallback j pt :: cbStates (applyCallback j pt) rest

/-- All chunks produced by step 2 of `_process_ingestion`: each crawled
page is processed independently, skipped pages contribute nothing, and
the surviving pages' chunks are concatenated in order. -/
def producedChunks (cfg : ChunkCfg) (digest clean : PyStr → PyStr)
    (pages : List PageData) : List ChunkRec :=
  ((pages.filterMap (process_page cfg digest clean)).map
    (fun pr => pr.chunks)).flatten

/-- Whether the `try` block of `_process_ingestion` finishes normally or
raises: a crawl exception propagates; with zero chunks the embedding and
indexing steps are skipped and the run succeeds; otherwise the embedding
call and then the vector-store add/save may raise. -/
def pipelineOutcome (cfg : ChunkCfg) (digest clean : PyStr → PyStr)
    (eff : IngestEff) : Except PyStr Unit :=
  match eff.crawlError with
  | some e => .error e
  | none =>
    let all_chunks := producedChunks cfg digest clean eff.crawlPages
    if all_chunks.isEmpty then .ok ()
    else
      match eff.embedResult (all_chunks.map (fun c => c.content)) with
      | .error e => .error e
      | .ok _ =>
        match eff.addSaveError with
        | some e => .error e
        | none => .ok ()

/-- `IngestionService._process_ingestion` as the trace of job-record
states written to the job store, starting from the record `job0` created
by `start_ingestion`: first the `running` update, then one update per
progress callback, then the terminal update — `completed` with
`progress` forced to `1.0` on success, `failed` with the captured
message on an exception.  The function is total: the `except` handler
turns every pipeline exception into the `failed` write instead of
re-raising. -/
def process_ingestion (cfg : ChunkCfg) (digest clean : PyStr → PyStr)
    (eff : IngestEff) (job0 : JobRec) : List JobRec :=
  let j1 := { job0 with status := JobStatus.running }
  let jr := eff.callbacks.foldl applyCallback j1
  let terminal :=
    match pipelineOutcome cfg digest clean eff with
    | .ok _ => { jr with status := JobStatus.completed, progress := 1 }
    | .error e => { jr with status := JobStatus.failed, error_message := some e }
  job0 :: j1 :: (cbStates j1 eff.callbacks ++ [terminal])

theorem applyCallback_status (j : JobRec) (pt : Nat × Nat) :
    (applyCallback j pt).status = j.status := rfl

theorem cbStates_statuses (cbs : List (Nat × Nat)) :
    ∀ j : JobRec, (cbStates j cbs).map (fun x => x.status) =
      List.replicate cbs.length j.status := by
  induction cbs with
  | nil => intro j; simp [cbStates]
  | cons pt rest ih =>
    intro j
    simp [cbStates, List.replicate_succ, ih (applyCallback j pt), applyCallback_status]

theorem foldl_applyCallback_status (cbs : List (Nat × Nat)) :
    ∀ j : JobRec, (cbs.foldl applyCallback j).status = j.status := by
  induction cbs with
  | nil => intro j; rfl
  | cons pt rest ih => intro j; simp [List.foldl_cons, ih, applyCallback_status]

theorem process_ingestion_spec (cfg : ChunkCfg) (digest clean : PyStr → PyStr)
    (eff : IngestEff) (job0 : JobRec) (hpend : job0.status = JobStatus.pending) :
    (∃ s, (process_ingestion cfg digest clean eff job0).map (fun j => j.status) =
        [JobStatus.pending, JobStatus.running] ++
          List.replicate eff.callbacks.length JobStatus.running ++ [s] ∧
        (s = JobStatus.completed ∨ s = JobStatus.failed)) ∧
    (∀ jl, (process_ingestion cfg digest clean eff job0).getLast? = some jl →
      (jl.status = JobStatus.completed → jl.progress = 1) ∧
      (eff.crawlError = none →
        producedChunks cfg digest clean eff.crawlPages = [] →
        jl.status = JobStatus.completed) ∧
      (∀ e, pipelineOutcome cfg digest clean eff = Except.error e →
        jl.status = JobStatus.failed ∧ jl.error_message = some e)) := by
  unfold process_ingestion
  set j1 := { job0 with status := JobStatus.running } with hj1
  set jr := eff.callbacks.foldl applyCallback j1 with hjr
  constructor
  · cases houtcome : pipelineOutcome cfg digest clean eff with
    | ok u =>
      refine ⟨JobStatus.completed, ?_, Or.inl rfl⟩
      simp [houtcome, hpend, cbStates_statuses, hj1]
    | error e =>
      refine ⟨JobStatus.failed, ?_, Or.inr rfl⟩
      simp [houtcome, hpend, cbStates_statuses, hj1]
  · intro jl hjl
    have hform : (job0 :: j1 :: (cbStates j1 eff.callbacks ++
        [match pipelineOutcome cfg digest clean eff with
          | .ok _ => { jr with status := JobStatus.completed, progress := 1 }
          | .error e => { jr with status := JobStatus.failed, error_message := some e }])) =
        ((job0 :: j1 :: cbStates j1 eff.callbacks) ++
          [match pipelineOutcome cfg digest clean eff with
            | .ok _ => { jr with status := JobStatus.completed, progress := 1 }
            | .error e => { jr with status := JobStatus.failed, error_message := some e }]) := by
      simp
    rw [hform, List.getLast?_concat] at hjl
    cases houtcome : pipelineOutcome cfg digest clean eff with
    | ok u =>
      rw [houtcome] at hjl
      injection hjl with hjl
      refine ⟨fun _ => by rw [← hjl], fun _ _ => by rw [← hjl], ?_⟩
      intro e he
      exact absurd he (by simp)
    | error e0 =>
      rw [houtcome] at hjl
      injection hjl with hjl
      refine ⟨fun hc => ?_, fun hnone hempty => ?_, fun e he => ?_⟩
      · rw [← hjl] at hc
        simp at hc
      · exfalso
        simp only [pipelineOutcome, hnone, hempty] at houtcome
        simp at houtcome
      · injection he with he
        subst he
        exact ⟨by rw [← hjl], by rw [← hjl]⟩

theorem round_mono_q {a b : ℚ} (h : a ≤ b) : round a ≤ round b := by
  rw [round_eq, round_eq]
  exact Int.floor_le_floor (by linarith)

theorem round2_bounds {q : ℚ} (h0 : 0 ≤ q) (h1 : q ≤ 1) :
    0 ≤ round2 q ∧ round2 q ≤ 1 := by
  have hl : (0 : ℤ) ≤ round (100 * q) := by
    have := @round_mono_q 0 (100 * q) (by linarith)
    simpa using this
  have hu : round (100 * q) ≤ 100 := by
    have := @round_mono_q (100 * q) 100 (by linarith)
    simpa using this
  unfold round2
  constructor
  · apply div_nonneg _ (by norm_num)
    exact_mod_cast hl
  · rw [div_le_one (by norm_num)]
    exact_mod_cast hu

theorem calculate_confidence_spec (answer : PyStr) (citations : List Citation)
    (chunks : List (ChunkRec × ℚ)) (hne : chunks ≠ []) :
    calculate_confidence answer citations chunks =
      round2 ((0.4 : ℚ) * min ((citations.length : ℚ) / 3) 1 +
        (0.4 : ℚ) * (((chunks.take 3).map Prod.snd).sum /
          ((min chunks.length 3 : Nat) : ℚ)) +
        (0.2 : ℚ) * min ((pyWordCount answer : ℚ) / 100) 1) ∧
    ((∀ p ∈ chunks, 0 ≤ p.2 ∧ p.2 ≤ 1) →
      0 ≤ calculate_confidence answer citations chunks ∧
      calculate_confidence answer citations chunks ≤ 1) := by
  have hempty : chunks.isEmpty = false := by
    cases chunks with
    | nil => exact absurd rfl hne
    | cons a l => rfl
  have hunfold : calculate_confidence answer citations chunks =
      round2 (min ((citations.length : ℚ) / 3) 1 * (0.4 : ℚ) +
        (((chunks.take 3).map Prod.snd).sum /
          ((min chunks.length 3 : Nat) : ℚ)) * (0.4 : ℚ) +
        min (((pyWordCount answer : Nat) : ℚ) / 100) 1 * (0.2 : ℚ)) := by
    simp [calculate_confidence, hempty]
  constructor
  · rw [hunfold]
    congr 1
    ring
  · intro hs
    have hcs0 : (0 : ℚ) ≤ min ((citations.length : ℚ) / 3) 1 :=
      le_min (by positivity) (by norm_num)
    have hcs1 : min ((citations.length : ℚ) / 3) 1 ≤ 1 := min_le_right _ _
    have hls0 : (0 : ℚ) ≤ min (((pyWordCount answer : Nat) : ℚ) / 100) 1 :=
      le_min (by positivity) (by norm_num)
    have hls1 : min (((pyWordCount answer : Nat) : ℚ) / 100) 1 ≤ 1 := min_le_right _ _
    have hlen1 : 1 ≤ chunks.length := by
      cases chunks with
      | nil => exact absurd rfl hne
      | cons a l => simp
    have hd0 : (0 : ℚ) < ((min chunks.length 3 : Nat) : ℚ) := by
      have : 1 ≤ min chunks.length 3 := by omega
      exact_mod_cast Nat.lt_of_lt_of_le Nat.zero_lt_one this
    have hmem : ∀ x ∈ (chunks.take 3).map Prod.snd, 0 ≤ x ∧ x ≤ 1 := by
      intro x hx
      rcases List.mem_map.1 hx with ⟨p, hp, rfl⟩
      exact hs p (List.mem_of_mem_take hp)
    have hsum0 : 0 ≤ ((chunks.take 3).map Prod.snd).sum :=
      List.sum_nonneg (fun x hx => (hmem x hx).1)
    have hsum1 : ((chunks.take 3).map Prod.snd).sum ≤ ((min chunks.length 3 : Nat) : ℚ) := by
      have := List.sum_le_card_nsmul ((chunks.take 3).map Prod.snd) 1
        (fun x hx => (hmem x hx).2)
      rw [nsmul_eq_mul, mul_one] at this
      calc ((chunks.take 3).map Prod.snd).sum
          ≤ (((chunks.take 3).map Prod.snd).length : ℚ) := this
        _ = ((min chunks.length 3 : Nat) : ℚ) := by
            simp [List.length_take, Nat.min_comm]
    have har0 : 0 ≤ ((chunks.take 3).map Prod.snd).sum /
        ((min chunks.length 3 : Nat) : ℚ) := div_nonneg hsum0 (le_of_lt hd0)
    have har1 : ((chunks.take 3).map Prod.snd).sum /
        ((min chunks.length 3 : Nat) : ℚ) ≤ 1 := by
      rw [div_le_one hd0]
      exact hsum1
    rw [hunfold]
    exact round2_bounds (by linarith) (by linarith)

theorem generate_answer_empty (max_excerpt_length : Nat)
    (complete : PyStr → Except PyStr PyStr) (question : PyStr)
    (min_confidence : ℚ) :
    generate_answer max_excerpt_length complete question [] min_confidence =
      { answer := str "I don\x27t have enough information to answer this question."
        citations := []
        confidence := 0
        missing_information := some [str "No relevant sources found"] } := rfl

theorem generate_answer_error (max_excerpt_length : Nat) (question : PyStr)
    (retrieved_chunks : List (ChunkRec × ℚ)) (min_confidence : ℚ) (err : PyStr)
    (hne : retrieved_chunks ≠ []) :
    generate_answer max_excerpt_length (fun _ => Except.error err) question
      retrieved_chunks min_confidence =
      { answer := str "An error occurred while generating the answer."
        citations := []
        confidence := 0
        missing_information := some [str "Generation error"] } := by
  have hempty : retrieved_chunks.isEmpty = false := by
    cases retrieved_chunks with
    | nil => exact absurd rfl hne
    | cons a l => rfl
  simp [generate_answer, hempty]

theorem chunk_text_inv (cfg : ChunkCfg) (digest : PyStr → PyStr)
    (text url title : PyStr) :
    (∀ c ∈ chunk_text cfg digest text url title, c.word_count = pyWordCount c.content) ∧
    (∀ c ∈ chunk_text cfg digest text url title, cfg.min_chunk_length ≤ c.content.length) ∧
    ((chunk_text cfg digest text url title).map (fun c => c.chunk_index) =
      List.range (chunk_text cfg digest text url title).length) ∧
    (∀ c ∈ chunk_text cfg digest text url title, c.id = generate_chunk_id digest url c.chunk_index) := by
  have hinv : chunkInv cfg digest url
      ((splitSentences text).foldl (chunkStep cfg digest url title)
        { chunks := [], current := [], currentLen := 0, chunkIndex := 0 }) := by
    refine foldl_inv (chunkStep cfg digest url title) (chunkInv cfg digest url)
      (fun _ => True)
      (fun st a _ h => chunkStep_chunkInv cfg digest url title st a h)
      (splitSentences text) _ (fun _ _ => trivial) ?_
    refine ⟨rfl, ?_, ?_, rfl, ?_⟩ <;> simp
  exact chunkFinal_chunkInv cfg digest url title _ hinv

/-! ## Claims -/

/-- A throwaway chunk record for concrete instances. -/
def zChunk : ChunkRec :=
  { id := [], url := [], title := [], content := [], chunk_index := 0, word_count := 0 }

/-- C1 (amended): for every answer text, citation list and non-empty
ranked-chunk list, the confidence returned by
`AnswerGenerator._calculate_confidence` equals
`round2(0.4*min(citationCount/3,1) + 0.4*avgTopThreeRetrievalScore +
0.2*min(answerWordCount/100,1))`; and — amended — when every retrieval
score lies in `[0,1]` the confidence lies in `[0,1]`.  (The original
"for all inputs" bound fails for scores outside `[0,1]`, see the
counterexample.) -/
theorem C1_confidence (answer : PyStr) (citations : List Citation)
    (chunks : List (ChunkRec × ℚ)) (hne : chunks ≠ []) :
    calculate_confidence answer citations chunks =
      round2 ((0.4 : ℚ) * min ((citations.length : ℚ) / 3) 1 +
        (0.4 : ℚ) * (((chunks.take 3).map Prod.snd).sum /
          ((min chunks.length 3 : Nat) : ℚ)) +
        (0.2 : ℚ) * min ((pyWordCount answer : ℚ) / 100) 1) ∧
    ((∀ p ∈ chunks, 0 ≤ p.2 ∧ p.2 ≤ 1) →
      0 ≤ calculate_confidence answer citations chunks ∧
      calculate_confidence answer citations chunks ≤ 1) :=
  calculate_confidence_spec answer citations chunks hne

/-- C1 counterexample: with one ranked chunk of retrieval score `-1`
(cosine similarity of normalized vectors can be negative), an empty
answer and no citations, the confidence is `-0.4`, outside `[0,1]` —
so the claimed bound does not hold for all inputs. -/
theorem C1_confidence_cex :
    calculate_confidence [] [] [(zChunk, -1)] = -(2/5) ∧
    ¬ (0 ≤ calculate_confidence [] [] [(zChunk, -1)]) := by
  have hround : round2 (-(2/5)) = -(2/5) := by
    unfold round2
    rw [show (100 : ℚ) * (-(2/5)) = ((-40 : ℤ) : ℚ) by norm_num, round_intCast]
    norm_num
  have hcalc : calculate_confidence [] [] [(zChunk, -1)] = round2 (-(2/5)) := by
    unfold calculate_confidence
    norm_num [pyWordCount, pyWords, pyWordsAux]
  rw [hcalc, hround]
  norm_num

/-- C1 witness. -/
theorem C1_confidence_witness :
    (([(zChunk, (1 : ℚ)/2)] : List (ChunkRec × ℚ)) ≠ []) ∧
    (0 ≤ calculate_confidence [] [] [(zChunk, (1 : ℚ)/2)] ∧
      calculate_confidence [] [] [(zChunk, (1 : ℚ)/2)] ≤ 1) :=
  ⟨by simp, (C1_confidence [] [] [(zChunk, (1 : ℚ)/2)] (by simp)).2 (by
    intro p hp
    rw [List.mem_singleton] at hp
    subst hp
    norm_num)⟩

/-- C2 (amended): no chunk emitted by `ContentProcessor.chunk_text` has
content shorter than `min_chunk_length` characters (unconditional); and
— amended — consecutive emitted chunks have a non-empty word-set
intersection provided additionally that `min_chunk_length = 0` (so no
accumulation is dropped between the two chunks) and that every
sentence's word count is at most `chunk_overlap` (so the overlap seed is
never empty).  The original unconditional overlap claim fails, see the
counterexample. -/
theorem C2_chunk_overlap (cfg : ChunkCfg) (digest : PyStr → PyStr)
    (text url title : PyStr) :
    (∀ c ∈ chunk_text cfg digest text url title,
      cfg.min_chunk_length ≤ c.content.length) ∧
    (cfg.min_chunk_length = 0 → 0 < cfg.chunk_overlap →
      (∀ s ∈ splitSentences text, pyWordCount s ≤ cfg.chunk_overlap) →
      chainOverlap (chunk_text cfg digest text url title)) :=
  ⟨(chunk_text_inv cfg digest text url title).2.1,
   fun hmin _ hsent => chunk_text_chainOverlap cfg digest text url title hmin hsent⟩

/-- C2 counterexample: with `chunk_size = 5`, `chunk_overlap = 1` and
`min_chunk_length = 1`, the text `"a b c. d e f. g h i."` yields three
emitted chunks whose consecutive word sets are disjoint: each sentence
has 3 words, more than the overlap budget, so every overlap seed is
empty. -/
theorem C2_chunk_overlap_cex :
    0 < (⟨5, 1, 1⟩ : ChunkCfg).chunk_overlap ∧
    2 ≤ (chunk_text ⟨5, 1, 1⟩ id (str "a b c. d e f. g h i.")
      (str "u") (str "t")).length ∧
    ¬ chainOverlap (chunk_text ⟨5, 1, 1⟩ id (str "a b c. d e f. g h i.")
      (str "u") (str "t")) := by
  refine ⟨by decide, by decide, by decide⟩

/-- C2 witness. -/
theorem C2_chunk_overlap_witness :
    ((⟨5, 3, 0⟩ : ChunkCfg).min_chunk_length = 0 ∧
      0 < (⟨5, 3, 0⟩ : ChunkCfg).chunk_overlap ∧
      (∀ s ∈ splitSentences (str "a b. c d. e f."), pyWordCount s ≤ 3)) ∧
    chainOverlap (chunk_text ⟨5, 3, 0⟩ id (str "a b. c d. e f.")
      (str "u") (str "t")) :=
  ⟨⟨rfl, by decide, by decide⟩,
   (C2_chunk_overlap ⟨5, 3, 0⟩ id (str "a b. c d. e f.") (str "u") (str "t")).2
     rfl (by decide) (by decide)⟩

/-- C3 (amended): the invariant — `id_to_index` a bijection onto
`[0, count)` and `count` equal to the number of stored vectors — holds
for a freshly initialized index and is preserved by
`VectorStore.add_embeddings` provided — amended — the added metadata
ids are pairwise distinct, none of them is already mapped, and there is
exactly one metadata dict per embedding vector.  For a repeated id the
dict entry is overwritten and the bijection is lost, see the
counterexample. -/
theorem C3_index_bijection (normalize : Vec → Vec) (vs : VSState)
    (embeddings : List Vec) (chunks_metadata : List ChunkRec)
    (hinv : vsInvariant vs)
    (hnodup : (chunks_metadata.map (fun m => m.id)).Nodup)
    (hfresh : ∀ m ∈ chunks_metadata, dictLookup vs.id_to_index m.id = none)
    (hlen : embeddings.length = chunks_metadata.length) :
    vsInvariant initial_index ∧
    vsInvariant (add_embeddings normalize vs embeddings chunks_metadata) :=
  ⟨by refine ⟨by simp [initial_index], by simp [initial_index], rfl⟩,
   add_embeddings_invariant normalize vs embeddings chunks_metadata
     hinv hnodup hfresh hlen⟩

/-- C3 counterexample: adding two metadata dicts with the same id to a
freshly initialized index leaves `id_to_index` with a single binding
`id ↦ 1` while `count = 2`, so `id_to_index` is not a bijection onto
`[0, count)` although the state was reached by one `add` from an
initialized index. -/
theorem C3_index_bijection_cex :
    vsInvariant initial_index ∧
    ¬ vsInvariant (add_embeddings id initial_index [[1], [1]]
      [{ id := ['x'], url := [], title := [], content := [],
          chunk_index := 0, word_count := 0 },
       { id := ['x'], url := [], title := [], content := [],
          chunk_index := 1, word_count := 0 }]) := by
  constructor <;> decide

/-- C3 witness. -/
theorem C3_index_bijection_witness :
    (vsInvariant initial_index ∧
      (([zChunk].map (fun m => m.id)).Nodup) ∧
      (∀ m ∈ [zChunk], dictLookup initial_index.id_to_index m.id = none) ∧
      ([[ (1 : ℚ) ]].length = [zChunk].length)) ∧
    vsInvariant (add_embeddings id initial_index [[(1 : ℚ)]] [zChunk]) :=
  ⟨⟨by decide, by decide, by decide, rfl⟩,
   (C3_index_bijection id initial_index [[(1 : ℚ)]] [zChunk]
     (by decide) (by decide) (by decide) rfl).2⟩

/-- C4: for every query vector and every in-sync index state
(`ntotal = len(metadata)`, the §3 invariant), `VectorStore.search`
returns at most `min(top_k, count)` results, their scores are
non-increasing, and an index holding zero vectors yields the empty list
rather than failing. -/
theorem C4_search_spec (normalize : Vec → Vec) (vs : VSState)
    (query_embedding : Vec) (top_k : Nat)
    (hsync : vs.vectors.length = vs.metadata.length) :
    (search normalize vs query_embedding top_k).length ≤ min top_k vs.metadata.length ∧
    List.Pairwise (fun a b : ChunkRec × ℚ => b.2 ≤ a.2)
      (search normalize vs query_embedding top_k) ∧
    (vs.vectors.length = 0 → search normalize vs query_embedding top_k = []) :=
  search_spec normalize vs query_embedding top_k hsync

/-- C4 witness. -/
theorem C4_search_spec_witness :
    (initial_index.vectors.length = initial_index.metadata.length) ∧
    ((search id initial_index [(1 : ℚ)] 5).length ≤ min 5 initial_index.metadata.length ∧
      List.Pairwise (fun a b : ChunkRec × ℚ => b.2 ≤ a.2)
        (search id initial_index [(1 : ℚ)] 5) ∧
      (initial_index.vectors.length = 0 → search id initial_index [(1 : ℚ)] 5 = [])) :=
  ⟨rfl, C4_search_spec id initial_index [(1 : ℚ)] 5 rfl⟩

/-- C5: for every seed URL list, fetch behaviour and crawler
configuration, `WebCrawler.crawl` returns at most `max_pages` page
records, and no returned page was dequeued at a depth greater than
`max_depth`. -/
theorem C5_crawl_bounds (cfg : CrawlCfg) (fetch : PyStr → Option PageData)
    (normalize : PyStr → PyStr) (allowed : PyStr → Bool)
    (seed_urls : List PyStr) :
    (crawl cfg fetch normalize allowed seed_urls).length ≤ cfg.max_pages ∧
    (∀ p ∈ crawl cfg fetch normalize allowed seed_urls, p.1 ≤ cfg.max_depth) :=
  ⟨(crawl_spec cfg fetch normalize allowed seed_urls).1,
   (crawl_spec cfg fetch normalize allowed seed_urls).2.1⟩

/-- A concrete linkless page for the crawl witnesses. -/
def pgW : PageData :=
  { url := str "u", title := str "t", html_content := str "h",
    links := [], content_hash := str "hh" }

theorem crawlW_eval :
    crawl ⟨1, 0⟩ (fun _ => some pgW) id (fun _ => true) [str "u"] = [(0, pgW)] := by
  rw [crawl]
  simp only [List.map_cons, List.map_nil]
  rw [crawlLoop.eq_def]
  norm_num
  rw [crawlLoop.eq_def]

/-- C5 witness. -/
theorem C5_crawl_bounds_witness :
    (crawl ⟨1, 0⟩ (fun _ => some pgW) id (fun _ => true) [str "u"]).length ≤ 1 ∧
    (0, pgW).1 ≤ (⟨1, 0⟩ : CrawlCfg).max_depth :=
  ⟨(C5_crawl_bounds ⟨1, 0⟩ (fun _ => some pgW) id (fun _ => true) [str "u"]).1,
   (C5_crawl_bounds ⟨1, 0⟩ (fun _ => some pgW) id (fun _ => true) [str "u"]).2
     (0, pgW) (by rw [crawlW_eval]; exact List.mem_singleton.2 rfl)⟩

/-- C6: within one crawl call no two returned page records share a
content hash: a fetched page whose hash was already seen in this crawl
is discarded rather than appended. -/
theorem C6_crawl_dedup (cfg : CrawlCfg) (fetch : PyStr → Option PageData)
    (normalize : PyStr → PyStr) (allowed : PyStr → Bool)
    (seed_urls : List PyStr) :
    List.Pairwise (fun a b : Nat × PageData =>
      a.2.content_hash ≠ b.2.content_hash)
      (crawl cfg fetch normalize allowed seed_urls) :=
  (crawl_spec cfg fetch normalize allowed seed_urls).2.2

/-- C7: with no retrieved chunks, `AnswerGenerator.generate_answer`
returns the fixed insufficient-information answer with confidence 0 and
no citations, for every completion provider (so no provider call can
influence the result); and when the provider raises, it returns the
fixed error answer with confidence 0 and no citations instead of
propagating the error (the modelled function is total). -/
theorem C7_answer_fallbacks (max_excerpt_length : Nat)
    (complete : PyStr → Except PyStr PyStr) (question : PyStr)
    (retrieved_chunks : List (ChunkRec × ℚ)) (min_confidence : ℚ) (err : PyStr) :
    (retrieved_chunks = [] →
      generate_answer max_excerpt_length complete question retrieved_chunks
        min_confidence =
        { answer := str "I don\x27t have enough information to answer this question."
          citations := []
          confidence := 0
          missing_information := some [str "No relevant sources found"] }) ∧
    (retrieved_chunks ≠ [] →
      generate_answer max_excerpt_length (fun _ => Except.error err) question
        retrieved_chunks min_confidence =
        { answer := str "An error occurred while generating the answer."
          citations := []
          confidence := 0
          missing_information := some [str "Generation error"] }) := by
  constructor
  · intro h
    subst h
    exact generate_answer_empty max_excerpt_length complete question min_confidence
  · intro hne
    exact generate_answer_error max_excerpt_length question retrieved_chunks
      min_confidence err hne

/-- C7 witness. -/
theorem C7_answer_fallbacks_witness :
    (([] : List (ChunkRec × ℚ)) = [] ∧
      generate_answer 25 (fun _ => Except.ok []) (str "q") [] ((7 : ℚ)/10) =
        { answer := str "I don\x27t have enough information to answer this question."
          citations := []
          confidence := 0
          missing_information := some [str "No relevant sources found"] }) ∧
    (([(zChunk, (1 : ℚ))] : List (ChunkRec × ℚ)) ≠ [] ∧
      generate_answer 25 (fun _ => Except.error []) (str "q") [(zChunk, (1 : ℚ))]
        ((7 : ℚ)/10) =
        { answer := str "An error occurred while generating the answer."
          citations := []
          confidence := 0
          missing_information := some [str "Generation error"] }) :=
  ⟨⟨rfl, (C7_answer_fallbacks 25 (fun _ => Except.ok []) (str "q") [] ((7 : ℚ)/10)
      []).1 rfl⟩,
   ⟨by decide, (C7_answer_fallbacks 25 (fun _ => Except.error []) (str "q")
      [(zChunk, (1 : ℚ))] ((7 : ℚ)/10) []).2 (by decide)⟩⟩

/-- C8: chunking is deterministic in `(url, content)` — segmenting the
same input twice yields the same id list (the embedding is a pure
function, so the first conjunct is definitional); the emitted
`chunk_index`es are exactly `0, ..., n-1` in order (the index increments
only for emitted chunks); and every chunk id is
`_generate_chunk_id(url, chunk_index)`. -/
theorem C8_chunk_ids (cfg : ChunkCfg) (digest : PyStr → PyStr)
    (text url title : PyStr) :
    (chunk_text cfg digest text url title).map (fun c => c.id) =
      (chunk_text cfg digest text url title).map (fun c => c.id) ∧
    (chunk_text cfg digest text url title).map (fun c => c.chunk_index) =
      List.range (chunk_text cfg digest text url title).length ∧
    (∀ c ∈ chunk_text cfg digest text url title,
      c.id = generate_chunk_id digest url c.chunk_index) :=
  ⟨rfl, (chunk_text_inv cfg digest text url title).2.2.1,
   (chunk_text_inv cfg digest text url title).2.2.2⟩

/-- C8 witness. -/
theorem C8_chunk_ids_witness :
    ({ id := str "u_0", url := str "u", title := str "t", content := str "a b c.",
        chunk_index := 0, word_count := 3 } : ChunkRec) ∈
      chunk_text ⟨5, 1, 1⟩ id (str "a b c. d e f.") (str "u") (str "t") ∧
    ({ id := str "u_0", url := str "u", title := str "t", content := str "a b c.",
        chunk_index := 0, word_count := 3 } : ChunkRec).id =
      generate_chunk_id id (str "u") 0 :=
  ⟨by decide,
   (C8_chunk_ids ⟨5, 1, 1⟩ id (str "a b c. d e f.") (str "u") (str "t")).2.2
     { id := str "u_0", url := str "u", title := str "t", content := str "a b c.",
        chunk_index := 0, word_count := 3 } (by decide)⟩

/-- C9: for every ingestion run the job record moves
pending → running → one terminal state in `{completed, failed}` (the
progress-callback updates in between keep the status `running`); when
the terminal record is `completed` its progress is 1.0; a run that
produces zero chunks (with the crawl finishing normally) still completes
— independently of the embedding provider, which is never consulted;
and a pipeline exception makes the terminal record `failed` with the
captured message instead of raising (the modelled trace function is
total). -/
theorem C9_job_lifecycle (cfg : ChunkCfg) (digest clean : PyStr → PyStr)
    (eff : IngestEff) (job0 : JobRec)
    (hpend : job0.status = JobStatus.pending) :
    (∃ s, (process_ingestion cfg digest clean eff job0).map (fun j => j.status) =
        [JobStatus.pending, JobStatus.running] ++
          List.replicate eff.callbacks.length JobStatus.running ++ [s] ∧
        (s = JobStatus.completed ∨ s = JobStatus.failed)) ∧
    (∀ jl, (process_ingestion cfg digest clean eff job0).getLast? = some jl →
      (jl.status = JobStatus.completed → jl.progress = 1) ∧
      (eff.crawlError = none →
        producedChunks cfg digest clean eff.crawlPages = [] →
        jl.status = JobStatus.completed) ∧
      (∀ e, pipelineOutcome cfg digest clean eff = Except.error e →
        jl.status = JobStatus.failed ∧ jl.error_message = some e)) :=
  process_ingestion_spec cfg digest clean eff job0 hpend

/-- C9 witness. -/
theorem C9_job_lifecycle_witness :
    ((⟨JobStatus.pending, 0, 50, 0, none⟩ : JobRec).status = JobStatus.pending) ∧
    (∃ s, (process_ingestion ⟨500, 50, 100⟩ id id
        ⟨[], [], none, fun _ => Except.ok [], none⟩
        ⟨JobStatus.pending, 0, 50, 0, none⟩).map (fun j => j.status) =
        [JobStatus.pending, JobStatus.running] ++
          List.replicate 0 JobStatus.running ++ [s] ∧
        (s = JobStatus.completed ∨ s = JobStatus.failed)) :=
  ⟨rfl, (C9_job_lifecycle ⟨500, 50, 100⟩ id id
    ⟨[], [], none, fun _ => Except.ok [], none⟩
    ⟨JobStatus.pending, 0, 50, 0, none⟩ rfl).1⟩

/-- C10: every chunk emitted by `ContentProcessor.chunk_text` has
`word_count` equal to the number of whitespace-separated words of its
content string — the accumulated per-sentence counts (overlap seed
included) agree with splitting the joined content. -/
theorem C10_word_count (cfg : ChunkCfg) (digest : PyStr → PyStr)
    (text url title : PyStr) :
    ∀ c ∈ chunk_text cfg digest text url title,
      c.word_count = (pyWords c.content).length :=
  (chunk_text_inv cfg digest text url title).1

/-- C10 witness. -/
theorem C10_word_count_witness :
    ({ id := str "u_0", url := str "u", title := str "t", content := str "a b c.",
        chunk_index := 0, word_count := 3 } : ChunkRec) ∈
      chunk_text ⟨5, 1, 1⟩ id (str "a b c. d e f.") (str "u") (str "t") ∧
    ({ id := str "u_0", url := str "u", title := str "t", content := str "a b c.",
        chunk_index := 0, word_count := 3 } : ChunkRec).word_count =
      (pyWords (str "a b c.")).length :=
  ⟨by decide,
   C10_word_count ⟨5, 1, 1⟩ id (str "a b c. d e f.") (str "u") (str "t")
     { id := str "u_0", url := str "u", title := str "t", content := str "a b c.",
        chunk_index := 0, word_count := 3 } (by decide)⟩

end NexTraction
